import Mathlib

/-!
Shallow embedding of `etl.py`, a Spark ETL pipeline that builds a star-schema
warehouse: `process_song_data` projects a song catalog into the `songs` and
`artists` dimension tables, `process_log_data` filters a listening-event log to
page = "NextSong", projects the `users` table, decomposes each event timestamp
into the `time` table, and joins events against `songs` (left, on title) and
`time` (inner, on start_time) to build the `songplays` fact table.

Modelling conventions: dataframes are lists of rows; `dropDuplicates` is
`List.dedup`; Spark's `monotonically_increasing_id` is modelled by an explicit
partitioning of the rows, assigning `partitionIndex * 2^33 + offsetInPartition`
(the engine's partitioning is a parameter `P`); parquet write + read-back is
modelled by a `Storage` record with overwrite-on-write fields; floating point
payload columns (duration, latitude, longitude), which the pipeline only ever
projects and compares for equality, are modelled as integers; timestamps are
nonnegative epoch milliseconds, and `datetime.utcfromtimestamp` together with
Spark's hour/dayofmonth/weekofyear/month/year/date_format-"u" is modelled by an
executable proleptic-Gregorian UTC decomposition with ISO week numbering.
-/

structure SongRecord where
  song_id : String
  title : String
  artist_id : String
  artist_name : String
  artist_location : String
  artist_latitude : Option Int
  artist_longitude : Option Int
  year : Int
  duration : Int
deriving DecidableEq

structure LogRecord where
  page : String
  userId : String
  firstName : String
  lastName : String
  gender : String
  level : String
  song : String
  ts : Nat
  sessionId : Nat
  location : String
  userAgent : String
deriving DecidableEq

structure SongRow where
  song_id : String
  title : String
  artist_id : String
  year : Int
  duration : Int
deriving DecidableEq

structure ArtistRow where
  artist_id : String
  artist_name : String
  artist_location : String
  artist_latitude : Option Int
  artist_longitude : Option Int
deriving DecidableEq

structure UserRow where
  userId : String
  firstName : String
  lastName : String
  gender : String
  level : String
deriving DecidableEq

structure TimeRow where
  start_time : Nat
  hour : Nat
  day : Nat
  week : Nat
  month : Nat
  year : Nat
  weekday : Nat
deriving DecidableEq

structure SongplayRow where
  songplay_id : Nat
  start_time : Nat
  year : Nat
  month : Nat
  userId : String
  level : String
  song_id : Option String
  artist_id : Option String
  sessionId : Nat
  location : String
  userAgent : String
deriving DecidableEq

def isLeap (y : Nat) : Bool := (y % 4 == 0 && y % 100 != 0) || y % 400 == 0

def daysInYear (y : Nat) : Nat := if isLeap y then 366 else 365

def monthLengths (y : Nat) : List Nat :=
  [31, if isLeap y then 29 else 28, 31, 30, 31, 30, 31, 31, 30, 31, 30, 31]

def yearAndDoyF : Nat → Nat → Nat → Nat × Nat
  | 0, y, d => (y, d)
  | fuel + 1, y, d =>
    if d < daysInYear y then (y, d) else yearAndDoyF fuel (y + 1) (d - daysInYear y)

def yearAndDoy (y d : Nat) : Nat × Nat := yearAndDoyF (d + 1) y d

def monthAndDay : List Nat → Nat → Nat × Nat
  | [], d => (1, d + 1)
  | ml :: rest, d =>
    if d < ml then (1, d + 1)
    else ((monthAndDay rest (d - ml)).1 + 1, (monthAndDay rest (d - ml)).2)

def pCal (y : Nat) : Nat := (y + y / 4 - y / 100 + y / 400) % 7

def weeksInYear (y : Nat) : Nat := if pCal y == 4 || pCal (y - 1) == 3 then 53 else 52

def isoWeek (y doy1 dow : Nat) : Nat :=
  if (10 + doy1 - dow) / 7 < 1 then weeksInYear (y - 1)
  else if weeksInYear y < (10 + doy1 - dow) / 7 then 1
  else (10 + doy1 - dow) / 7

def epochDays (ts : Nat) : Nat := ts / 1000 / 86400

def secondOfDay (ts : Nat) : Nat := ts / 1000 % 86400

def calYear (ts : Nat) : Nat := (yearAndDoy 1970 (epochDays ts)).1

def calDoy (ts : Nat) : Nat := (yearAndDoy 1970 (epochDays ts)).2

def calMonth (ts : Nat) : Nat := (monthAndDay (monthLengths (calYear ts)) (calDoy ts)).1

def calDay (ts : Nat) : Nat := (monthAndDay (monthLengths (calYear ts)) (calDoy ts)).2

def isoWeekday (ts : Nat) : Nat := (epochDays ts + 3) % 7 + 1

def timeRowOf (ts : Nat) : TimeRow :=
  { start_time := ts, hour := secondOfDay ts / 3600, day := calDay ts,
    week := isoWeek (calYear ts) (calDoy ts + 1) (isoWeekday ts),
    month := calMonth ts, year := calYear ts, weekday := isoWeekday ts }

def filterEvents (logs : List LogRecord) : List LogRecord :=
  logs.filter fun e => decide (e.page = "NextSong")

def songRowOf (r : SongRecord) : SongRow :=
  ⟨r.song_id, r.title, r.artist_id, r.year, r.duration⟩

def songsTableOf (catalog : List SongRecord) : List SongRow :=
  (catalog.map songRowOf).dedup

def artistRowOf (r : SongRecord) : ArtistRow :=
  ⟨r.artist_id, r.artist_name, r.artist_location, r.artist_latitude, r.artist_longitude⟩

def artistsTableOf (catalog : List SongRecord) : List ArtistRow :=
  (catalog.map artistRowOf).dedup

def userRowOf (e : LogRecord) : UserRow :=
  ⟨e.userId, e.firstName, e.lastName, e.gender, e.level⟩

def usersTableOf (logs : List LogRecord) : List UserRow :=
  ((filterEvents logs).map userRowOf).dedup

def timeTableOf (fe : List LogRecord) : List TimeRow :=
  (fe.map fun e => timeRowOf e.ts).dedup

structure JoinedEvent where
  start_time : Nat
  userId : String
  level : String
  song_id : Option String
  artist_id : Option String
  sessionId : Nat
  location : String
  userAgent : String
deriving DecidableEq

def joinedOf (e : LogRecord) (sid aid : Option String) : JoinedEvent :=
  ⟨e.ts, e.userId, e.level, sid, aid, e.sessionId, e.location, e.userAgent⟩

def songMatches (songs : List SongRow) (e : LogRecord) : List SongRow :=
  songs.filter fun s => decide (s.title = e.song)

def leftJoinSongs (fe : List LogRecord) (songs : List SongRow) : List JoinedEvent :=
  fe.flatMap fun e =>
    if (songMatches songs e).isEmpty then [joinedOf e none none]
    else (songMatches songs e).map fun s => joinedOf e (some s.song_id) (some s.artist_id)

structure Stage1Row where
  songplay_id : Nat
  start_time : Nat
  userId : String
  level : String
  song_id : Option String
  artist_id : Option String
  sessionId : Nat
  location : String
  userAgent : String
deriving DecidableEq

def stage1Row (i : Nat) (j : JoinedEvent) : Stage1Row :=
  ⟨i, j.start_time, j.userId, j.level, j.song_id, j.artist_id, j.sessionId, j.location,
    j.userAgent⟩

def stripId (r : Stage1Row) : JoinedEvent :=
  ⟨r.start_time, r.userId, r.level, r.song_id, r.artist_id, r.sessionId, r.location,
    r.userAgent⟩

def partBits : Nat := 2 ^ 33

def idsInPart (p : Nat) : Nat → List JoinedEvent → List Stage1Row
  | _, [] => []
  | i, j :: l => stage1Row (p * partBits + i) j :: idsInPart p (i + 1) l

def assignIds : Nat → List (List JoinedEvent) → List Stage1Row
  | _, [] => []
  | p, part :: rest => idsInPart p 0 part ++ assignIds (p + 1) rest

def songplayOfJoin (r : Stage1Row) (t : TimeRow) : SongplayRow :=
  ⟨r.songplay_id, r.start_time, t.year, t.month, r.userId, r.level, r.song_id, r.artist_id,
    r.sessionId, r.location, r.userAgent⟩

def calendarJoin (s1 : List Stage1Row) (tt : List TimeRow) : List SongplayRow :=
  (s1.flatMap fun r =>
    (tt.filter fun t => decide (t.start_time = r.start_time)).map (songplayOfJoin r)).dedup

abbrev validParts (parts : List (List JoinedEvent)) (l : List JoinedEvent) : Prop :=
  parts.flatten = l ∧ ∀ q ∈ parts, q.length ≤ partBits

def songplaysTableOf (logs : List LogRecord) (songs : List SongRow)
    (P : List JoinedEvent → List (List JoinedEvent)) : List SongplayRow :=
  calendarJoin (assignIds 0 (P (leftJoinSongs (filterEvents logs) songs)))
    (timeTableOf (filterEvents logs))

def singlePart (l : List JoinedEvent) : List (List JoinedEvent) := [l]

structure Storage where
  songs : List SongRow
  artists : List ArtistRow
  users : List UserRow
  time : List TimeRow
  songplays : List SongplayRow
deriving DecidableEq

def emptyStorage : Storage := ⟨[], [], [], [], []⟩

def process_song_data (catalog : List SongRecord) (st : Storage) : Storage :=
  { st with songs := songsTableOf catalog, artists := artistsTableOf catalog }

def process_log_data (logs : List LogRecord)
    (P : List JoinedEvent → List (List JoinedEvent)) (st : Storage) : Storage :=
  { st with users := usersTableOf logs,
            time := timeTableOf (filterEvents logs),
            songplays := songplaysTableOf logs st.songs P }

def mainRun (catalog : List SongRecord) (logs : List LogRecord)
    (P : List JoinedEvent → List (List JoinedEvent)) (st : Storage) : Storage :=
  process_log_data logs P (process_song_data catalog st)

def sampleCatalog : List SongRecord :=
  [⟨"S1", "Test Song", "A1", "Artist One", "Metropolis", none, none, 2000, 200⟩]

def sampleEvent : LogRecord :=
  ⟨"NextSong", "10", "First", "Last", "F", "free", "Test Song", 1541990258796, 100,
    "Metropolis", "agent"⟩

def sampleLogs : List LogRecord := [sampleEvent]

def sampleEventB : LogRecord :=
  ⟨"NextSong", "20", "Second", "Another", "M", "paid", "Other Song", 1541990318796, 200,
    "Gotham", "agent2"⟩

def pairLogs : List LogRecord := [sampleEvent, sampleEventB]

def twoPart (l : List JoinedEvent) : List (List JoinedEvent) := [l.take 1, l.drop 1]

def nonSongEvent : LogRecord :=
  ⟨"Home", "10", "First", "Last", "F", "free", "", 1541990258796, 100, "Metropolis", "agent"⟩

def fanoutCatalog : List SongRecord :=
  [⟨"S1", "Test Song", "A1", "Artist One", "Metropolis", none, none, 2000, 100⟩,
   ⟨"S1", "Test Song", "A1", "Artist One", "Metropolis", none, none, 2000, 200⟩]

def sampleSongplayRow : SongplayRow :=
  ⟨0, 1541990258796, 2018, 11, "10", "free", some "S1", some "A1", 100, "Metropolis", "agent"⟩

abbrev eventFields (row : SongplayRow) (e : LogRecord) : Prop :=
  row.start_time = e.ts ∧ row.userId = e.userId ∧ row.level = e.level ∧
  row.sessionId = e.sessionId ∧ row.location = e.location ∧ row.userAgent = e.userAgent

abbrev joinedFields (j : JoinedEvent) (e : LogRecord) : Prop :=
  j.start_time = e.ts ∧ j.userId = e.userId ∧ j.level = e.level ∧
  j.sessionId = e.sessionId ∧ j.location = e.location ∧ j.userAgent = e.userAgent

abbrev JoinSoundness (logs : List LogRecord) (songs : List SongRow)
    (P : List JoinedEvent → List (List JoinedEvent)) : Prop :=
  (∀ row ∈ songplaysTableOf logs songs P, ∃ e ∈ filterEvents logs, eventFields row e ∧
      (∀ sid, row.song_id = some sid →
        ∃ s ∈ songs, s.title = e.song ∧ s.song_id = sid ∧ row.artist_id = some s.artist_id) ∧
      (row.song_id = none → ∀ s ∈ songs, s.title ≠ e.song)) ∧
  (∀ e ∈ filterEvents logs, ∃ j ∈ leftJoinSongs (filterEvents logs) songs, joinedFields j e)

abbrev UniqueIds (logs : List LogRecord) (songs : List SongRow)
    (P : List JoinedEvent → List (List JoinedEvent)) : Prop :=
  ((songplaysTableOf logs songs P).map SongplayRow.songplay_id).Pairwise (· < ·) ∧
  (∀ row ∈ songplaysTableOf logs songs P,
    ∃ r ∈ assignIds 0 (P (leftJoinSongs (filterEvents logs) songs)),
      r.songplay_id = row.songplay_id ∧ r.start_time = row.start_time ∧
      r.userId = row.userId ∧ r.level = row.level ∧ r.song_id = row.song_id ∧
      r.artist_id = row.artist_id ∧ r.sessionId = row.sessionId ∧
      r.location = row.location ∧ r.userAgent = row.userAgent)

abbrev NoncontiguousIdsPossible : Prop :=
  ∃ logs songs P,
    validParts (P (leftJoinSongs (filterEvents logs) songs))
      (leftJoinSongs (filterEvents logs) songs) ∧
    (songplaysTableOf logs songs P).map SongplayRow.songplay_id = [0, partBits] ∧
    (1 : Nat) ≠ partBits

abbrev CalendarSourcing (logs : List LogRecord) (songs : List SongRow)
    (P : List JoinedEvent → List (List JoinedEvent)) : Prop :=
  ∀ row ∈ songplaysTableOf logs songs P,
    ∃ t ∈ timeTableOf (filterEvents logs), t.start_time = row.start_time ∧
      row.year = t.year ∧ row.month = t.month ∧
      ∀ u ∈ timeTableOf (filterEvents logs), u.start_time = row.start_time → u = t

abbrev NoCalendarDrop (logs : List LogRecord) (songs : List SongRow)
    (P : List JoinedEvent → List (List JoinedEvent)) : Prop :=
  (songplaysTableOf logs songs P).length =
    (leftJoinSongs (filterEvents logs) songs).length ∧
  ∀ e ∈ filterEvents logs, ∃ row ∈ songplaysTableOf logs songs P, eventFields row e

abbrev NonSongInvariance (logs1 logs2 : List LogRecord) (e : LogRecord)
    (songs : List SongRow) (P : List JoinedEvent → List (List JoinedEvent)) : Prop :=
  filterEvents (logs1 ++ e :: logs2) = filterEvents (logs1 ++ logs2) ∧
  usersTableOf (logs1 ++ e :: logs2) = usersTableOf (logs1 ++ logs2) ∧
  timeTableOf (filterEvents (logs1 ++ e :: logs2)) =
    timeTableOf (filterEvents (logs1 ++ logs2)) ∧
  songplaysTableOf (logs1 ++ e :: logs2) songs P = songplaysTableOf (logs1 ++ logs2) songs P ∧
  ∀ e2 ∈ filterEvents (logs1 ++ e :: logs2), e2.page = "NextSong"

theorem timeRowOf_start (ts : Nat) : (timeRowOf ts).start_time = ts := rfl

theorem mem_timeTableOf {fe : List LogRecord} {t : TimeRow} :
    t ∈ timeTableOf fe ↔ ∃ e ∈ fe, timeRowOf e.ts = t := by
  simp [timeTableOf, List.mem_dedup]

theorem timeTable_row_eq {fe : List LogRecord} {t : TimeRow} (h : t ∈ timeTableOf fe) :
    t = timeRowOf t.start_time := by
  rcases mem_timeTableOf.mp h with ⟨e, _, he⟩
  rw [← he, timeRowOf_start]

theorem filter_eq_singleton_of_nodup {α : Type} {l : List α} {p : α → Bool} {v : α}
    (hnd : l.Nodup) (hv : v ∈ l) (hpv : p v = true) (hall : ∀ x ∈ l, p x = true → x = v) :
    l.filter p = [v] := by
  induction l with
  | nil => cases hv
  | cons a l ih =>
    rcases List.nodup_cons.mp hnd with ⟨hna, hndl⟩
    rcases List.mem_cons.mp hv with hav | hvl
    · subst hav
      rw [List.filter_cons_of_pos hpv]
      have : l.filter p = [] := by
        apply List.filter_eq_nil_iff.mpr
        intro x hx hpx
        exact hna ((hall x (List.mem_cons_of_mem _ hx) hpx) ▸ hx)
      rw [this]
    · have hav : a ≠ v := fun h => hna (h ▸ hvl)
      have hpa : ¬ p a = true := fun h => hav (hall a (List.mem_cons_self a l) h)
      rw [List.filter_cons_of_neg (by simpa using hpa)]
      exact ih hndl hvl fun x hx hpx => hall x (List.mem_cons_of_mem _ hx) hpx

theorem flatMap_eq_map_of {α β : Type} {l : List α} {f : α → List β} {g : α → β}
    (h : ∀ a ∈ l, f a = [g a]) : l.flatMap f = l.map g := by
  induction l with
  | nil => rfl
  | cons a l ih =>
    rw [List.flatMap_cons, List.map_cons, h a (List.mem_cons_self a l),
      ih fun x hx => h x (List.mem_cons_of_mem _ hx)]
    rfl

theorem mem_songMatches {songs : List SongRow} {e : LogRecord} {s : SongRow} :
    s ∈ songMatches songs e ↔ s ∈ songs ∧ s.title = e.song := by
  simp [songMatches, List.mem_filter]

theorem mem_leftJoinSongs {fe : List LogRecord} {songs : List SongRow} {j : JoinedEvent}
    (hj : j ∈ leftJoinSongs fe songs) :
    ∃ e ∈ fe, joinedFields j e ∧
      ((j.song_id = none ∧ j.artist_id = none ∧ ∀ s ∈ songs, s.title ≠ e.song) ∨
       (∃ s ∈ songs, s.title = e.song ∧ j.song_id = some s.song_id ∧
         j.artist_id = some s.artist_id)) := by
  rcases List.mem_flatMap.mp hj with ⟨e, he, hmem⟩
  refine ⟨e, he, ?_⟩
  by_cases hE : (songMatches songs e).isEmpty
  · rw [if_pos hE] at hmem
    have hjeq : j = joinedOf e none none := List.mem_singleton.mp hmem
    subst hjeq
    refine ⟨⟨rfl, rfl, rfl, rfl, rfl, rfl⟩, Or.inl ⟨rfl, rfl, ?_⟩⟩
    intro s hs hts
    have : s ∈ songMatches songs e := mem_songMatches.mpr ⟨hs, hts⟩
    rw [List.isEmpty_iff.mp hE] at this
    cases this
  · rw [if_neg hE] at hmem
    rcases List.mem_map.mp hmem with ⟨s, hs, hjeq⟩
    rcases mem_songMatches.mp hs with ⟨hsongs, hts⟩
    subst hjeq
    exact ⟨⟨rfl, rfl, rfl, rfl, rfl, rfl⟩, Or.inr ⟨s, hsongs, hts, rfl, rfl⟩⟩

theorem leftJoinSongs_surv {fe : List LogRecord} {songs : List SongRow} {e : LogRecord}
    (he : e ∈ fe) : ∃ j ∈ leftJoinSongs fe songs, joinedFields j e := by
  by_cases hE : (songMatches songs e).isEmpty
  · refine ⟨joinedOf e none none, ?_, rfl, rfl, rfl, rfl, rfl, rfl⟩
    exact List.mem_flatMap.mpr ⟨e, he, by rw [if_pos hE]; exact List.mem_singleton.mpr rfl⟩
  · rcases List.exists_mem_of_ne_nil (songMatches songs e)
      (fun h => hE (by rw [h]; rfl)) with ⟨s, hs⟩
    refine ⟨joinedOf e (some s.song_id) (some s.artist_id), ?_, rfl, rfl, rfl, rfl, rfl, rfl⟩
    exact List.mem_flatMap.mpr ⟨e, he, by rw [if_neg hE]; exact List.mem_map_of_mem _ hs⟩

theorem leftJoinSongs_ts {fe : List LogRecord} {songs : List SongRow} {j : JoinedEvent}
    (hj : j ∈ leftJoinSongs fe songs) : ∃ e ∈ fe, e.ts = j.start_time := by
  rcases mem_leftJoinSongs hj with ⟨e, he, hf, _⟩
  exact ⟨e, he, hf.1.symm⟩

theorem stripId_stage1 (i : Nat) (j : JoinedEvent) : stripId (stage1Row i j) = j := rfl

theorem songplay_id_stage1 (i : Nat) (j : JoinedEvent) : (stage1Row i j).songplay_id = i := rfl

theorem mem_idsInPart {p : Nat} {part : List JoinedEvent} {r : Stage1Row} :
    ∀ {i : Nat}, r ∈ idsInPart p i part →
      stripId r ∈ part ∧ p * partBits + i ≤ r.songplay_id ∧
        r.songplay_id < p * partBits + i + part.length := by
  induction part with
  | nil => intro i h; cases h
  | cons j l ih =>
    intro i h
    rcases List.mem_cons.mp h with heq | hmem
    · subst heq
      refine ⟨List.mem_cons_self _ _, Nat.le_refl _, ?_⟩
      simp only [songplay_id_stage1, List.length_cons]
      omega
    · rcases ih hmem with ⟨h1, h2, h3⟩
      refine ⟨List.mem_cons_of_mem _ h1, by omega, ?_⟩
      simp only [List.length_cons]
      omega

theorem mem_assignIds {parts : List (List JoinedEvent)} {r : Stage1Row} :
    ∀ {p : Nat}, r ∈ assignIds p parts →
      stripId r ∈ parts.flatten ∧ p * partBits ≤ r.songplay_id := by
  induction parts with
  | nil => intro p h; cases h
  | cons part rest ih =>
    intro p h
    rcases List.mem_append.mp h with hmem | hmem
    · rcases mem_idsInPart hmem with ⟨h1, h2, _⟩
      exact ⟨List.mem_append_left _ h1, by omega⟩
    · rcases ih hmem with ⟨h1, h2⟩
      refine ⟨List.mem_append_right _ h1, ?_⟩
      have : p * partBits ≤ (p + 1) * partBits := by
        have : partBits > 0 := by decide
        calc p * partBits ≤ p * partBits + partBits := Nat.le_add_right _ _
        _ = (p + 1) * partBits := by ring
      omega

theorem idsInPart_surj {p : Nat} {part : List JoinedEvent} {j : JoinedEvent} :
    ∀ {i : Nat}, j ∈ part → ∃ r ∈ idsInPart p i part, stripId r = j := by
  induction part with
  | nil => intro i h; cases h
  | cons a l ih =>
    intro i h
    rcases List.mem_cons.mp h with heq | hmem
    · exact ⟨stage1Row (p * partBits + i) a, List.mem_cons_self _ _, heq ▸ rfl⟩
    · rcases @ih (i + 1) hmem with ⟨r, hr, hrj⟩
      exact ⟨r, List.mem_cons_of_mem _ hr, hrj⟩

theorem assignIds_surj {parts : List (List JoinedEvent)} {j : JoinedEvent} :
    ∀ {p : Nat}, j ∈ parts.flatten → ∃ r ∈ assignIds p parts, stripId r = j := by
  induction parts with
  | nil => intro p h; cases h
  | cons part rest ih =>
    intro p h
    rcases List.mem_append.mp h with hmem | hmem
    · rcases @idsInPart_surj p part j 0 hmem with ⟨r, hr, hrj⟩
      exact ⟨r, List.mem_append_left _ hr, hrj⟩
    · rcases @ih (p + 1) hmem with ⟨r, hr, hrj⟩
      exact ⟨r, List.mem_append_right _ hr, hrj⟩

theorem idsInPart_length (p : Nat) (part : List JoinedEvent) :
    ∀ i : Nat, (idsInPart p i part).length = part.length := by
  induction part with
  | nil => intro i; rfl
  | cons a l ih => intro i; simp [idsInPart, ih]

theorem assignIds_length (parts : List (List JoinedEvent)) :
    ∀ p : Nat, (assignIds p parts).length = parts.flatten.length := by
  induction parts with
  | nil => intro p; rfl
  | cons part rest ih =>
    intro p
    simp [assignIds, List.length_append, idsInPart_length, ih]

theorem idsInPart_pairwise (p : Nat) (part : List JoinedEvent) :
    ∀ i : Nat, ((idsInPart p i part).map Stage1Row.songplay_id).Pairwise (· < ·) := by
  induction part with
  | nil => intro i; exact List.Pairwise.nil
  | cons a l ih =>
    intro i
    rw [idsInPart, List.map_cons]
    refine List.Pairwise.cons ?_ (ih (i + 1))
    intro b hb
    rcases List.mem_map.mp hb with ⟨r, hr, hrb⟩
    have := (mem_idsInPart hr).2.1
    rw [songplay_id_stage1, ← hrb]
    omega

theorem assignIds_pairwise (parts : List (List JoinedEvent))
    (hlen : ∀ q ∈ parts, q.length ≤ partBits) :
    ∀ p : Nat, ((assignIds p parts).map Stage1Row.songplay_id).Pairwise (· < ·) := by
  induction parts with
  | nil => intro p; exact List.Pairwise.nil
  | cons part rest ih =>
    intro p
    rw [assignIds, List.map_append]
    refine List.pairwise_append.mpr ⟨idsInPart_pairwise p part 0, ?_, ?_⟩
    · exact ih (fun q hq => hlen q (List.mem_cons_of_mem _ hq)) (p + 1)
    · intro a ha b hb
      rcases List.mem_map.mp ha with ⟨r, hr, hra⟩
      rcases List.mem_map.mp hb with ⟨r2, hr2, hrb⟩
      have h1 := (mem_idsInPart hr).2.2
      have h2 := (mem_assignIds hr2).2
      have h3 : part.length ≤ partBits := hlen part (List.mem_cons_self _ _)
      have h4 : (p + 1) * partBits = p * partBits + partBits := by ring
      omega

theorem timeTable_filter_eq {fe : List LogRecord} {ts : Nat} (h : ∃ e ∈ fe, e.ts = ts) :
    (timeTableOf fe).filter (fun t => decide (t.start_time = ts)) = [timeRowOf ts] := by
  rcases h with ⟨e, he, hts⟩
  apply filter_eq_singleton_of_nodup (List.nodup_dedup _)
  · exact mem_timeTableOf.mpr ⟨e, he, by rw [hts]⟩
  · simp [timeRowOf_start]
  · intro x hx hpx
    have hx2 := timeTable_row_eq hx
    have hx3 : x.start_time = ts := by simpa using hpx
    rw [hx2, hx3]

theorem songplays_pipeline_eq (logs : List LogRecord) (songs : List SongRow)
    (P : List JoinedEvent → List (List JoinedEvent))
    (hP : validParts (P (leftJoinSongs (filterEvents logs) songs))
      (leftJoinSongs (filterEvents logs) songs)) :
    songplaysTableOf logs songs P =
      (assignIds 0 (P (leftJoinSongs (filterEvents logs) songs))).map
        (fun r => songplayOfJoin r (timeRowOf r.start_time)) := by
  rcases hP with ⟨hflat, hlen⟩
  have hA : ∀ r ∈ assignIds 0 (P (leftJoinSongs (filterEvents logs) songs)),
      ∃ e ∈ filterEvents logs, e.ts = r.start_time := by
    intro r hr
    have h1 := (mem_assignIds hr).1
    rw [hflat] at h1
    exact leftJoinSongs_ts h1
  have hC : ((assignIds 0 (P (leftJoinSongs (filterEvents logs) songs))).flatMap fun r =>
      ((timeTableOf (filterEvents logs)).filter fun t =>
        decide (t.start_time = r.start_time)).map (songplayOfJoin r)) =
      (assignIds 0 (P (leftJoinSongs (filterEvents logs) songs))).map
        fun r => songplayOfJoin r (timeRowOf r.start_time) := by
    apply flatMap_eq_map_of
    intro r hr
    rw [timeTable_filter_eq (hA r hr)]
    rfl
  have hD : (((assignIds 0 (P (leftJoinSongs (filterEvents logs) songs))).map
      fun r => songplayOfJoin r (timeRowOf r.start_time)).map SongplayRow.songplay_id) =
      (assignIds 0 (P (leftJoinSongs (filterEvents logs) songs))).map
        Stage1Row.songplay_id := by
    rw [List.map_map]
    rfl
  have hE : ((assignIds 0 (P (leftJoinSongs (filterEvents logs) songs))).map
      fun r => songplayOfJoin r (timeRowOf r.start_time)).Nodup := by
    apply List.Nodup.of_map SongplayRow.songplay_id
    rw [hD]
    exact (assignIds_pairwise _ hlen 0).imp Nat.ne_of_lt
  rw [songplaysTableOf, calendarJoin, hC, List.dedup_eq_self.mpr hE]

theorem daysInYear_ge (y : Nat) : 365 ≤ daysInYear y := by
  rw [daysInYear]
  split <;> omega

theorem yearAndDoyF_spec : ∀ (fuel y d : Nat), d < fuel →
    (yearAndDoyF fuel y d).2 < daysInYear (yearAndDoyF fuel y d).1 ∧
      y ≤ (yearAndDoyF fuel y d).1 := by
  intro fuel
  induction fuel with
  | zero => intro y d h; omega
  | succ n ih =>
    intro y d h
    rw [yearAndDoyF]
    by_cases hd : d < daysInYear y
    · rw [if_pos hd]
      exact ⟨hd, Nat.le_refl y⟩
    · rw [if_neg hd]
      have h365 := daysInYear_ge y
      have hlt : d - daysInYear y < n := by omega
      rcases ih (y + 1) (d - daysInYear y) hlt with ⟨h1, h2⟩
      exact ⟨h1, by omega⟩

theorem monthLengths_sum (y : Nat) : (monthLengths y).sum = daysInYear y := by
  rw [monthLengths, daysInYear]
  cases h : isLeap y <;> simp

theorem monthLengths_le (y : Nat) : ∀ m ∈ monthLengths y, m ≤ 31 := by
  intro m hm
  cases h : isLeap y <;> simp [monthLengths, h] at hm <;> omega

theorem monthLengths_length (y : Nat) : (monthLengths y).length = 12 := by
  rw [monthLengths]
  rfl

theorem monthAndDay_spec : ∀ (l : List Nat) (d : Nat), d < l.sum → (∀ m ∈ l, m ≤ 31) →
    1 ≤ (monthAndDay l d).1 ∧ (monthAndDay l d).1 ≤ l.length ∧
      1 ≤ (monthAndDay l d).2 ∧ (monthAndDay l d).2 ≤ 31 := by
  intro l
  induction l with
  | nil => intro d h _; simp [List.sum_nil] at h
  | cons ml rest ih =>
    intro d h hb
    rw [monthAndDay]
    have hml : ml ≤ 31 := hb ml (List.mem_cons_self _ _)
    by_cases hd : d < ml
    · rw [if_pos hd]
      refine ⟨Nat.le_refl 1, ?_, by omega, by omega⟩
      simp only [List.length_cons]
      omega
    · rw [if_neg hd]
      have hsum : d - ml < rest.sum := by
        simp only [List.sum_cons] at h
        omega
      rcases ih (d - ml) hsum (fun m hm => hb m (List.mem_cons_of_mem _ hm)) with
        ⟨h1, h2, h3, h4⟩
      refine ⟨by omega, ?_, h3, h4⟩
      simp only [List.length_cons]
      omega

theorem weeksInYear_bounds (y : Nat) : 52 ≤ weeksInYear y ∧ weeksInYear y ≤ 53 := by
  rw [weeksInYear]
  split <;> omega

theorem isoWeek_bounds (y doy1 dow : Nat) : 1 ≤ isoWeek y doy1 dow ∧ isoWeek y doy1 dow ≤ 53 := by
  have h1 := weeksInYear_bounds (y - 1)
  have h2 := weeksInYear_bounds y
  rw [isoWeek]
  by_cases ha : (10 + doy1 - dow) / 7 < 1
  · rw [if_pos ha]; omega
  · rw [if_neg ha]
    by_cases hc : weeksInYear y < (10 + doy1 - dow) / 7
    · rw [if_pos hc]; omega
    · rw [if_neg hc]; omega

theorem calYear_ge (ts : Nat) : 1970 ≤ calYear ts :=
  (yearAndDoyF_spec (epochDays ts + 1) 1970 (epochDays ts) (Nat.lt_succ_self _)).2

theorem calDoy_lt (ts : Nat) : calDoy ts < daysInYear (calYear ts) :=
  (yearAndDoyF_spec (epochDays ts + 1) 1970 (epochDays ts) (Nat.lt_succ_self _)).1

theorem calMonthDay_bounds (ts : Nat) :
    1 ≤ calMonth ts ∧ calMonth ts ≤ 12 ∧ 1 ≤ calDay ts ∧ calDay ts ≤ 31 := by
  have hlt : calDoy ts < (monthLengths (calYear ts)).sum := by
    rw [monthLengths_sum]
    exact calDoy_lt ts
  have h := monthAndDay_spec (monthLengths (calYear ts)) (calDoy ts) hlt
    (monthLengths_le (calYear ts))
  rw [monthLengths_length] at h
  exact ⟨h.1, h.2.1, h.2.2.1, h.2.2.2⟩

/-- C5: an event whose page is not the "NextSong" marker contributes no row to the
users, time, or songplays tables: inserting such an event anywhere into the log
leaves all three tables unchanged, and every filtered event has page "NextSong". -/
theorem filter_correctness (logs1 logs2 : List LogRecord) (e : LogRecord)
    (songs : List SongRow) (P : List JoinedEvent → List (List JoinedEvent))
    (h : e.page ≠ "NextSong") : NonSongInvariance logs1 logs2 e songs P := by
  have hfe : filterEvents (logs1 ++ e :: logs2) = filterEvents (logs1 ++ logs2) := by
    simp [filterEvents, List.filter_append, List.filter_cons, h]
  refine ⟨hfe, ?_, ?_, ?_, ?_⟩
  · rw [usersTableOf, usersTableOf, hfe]
  · rw [hfe]
  · rw [songplaysTableOf, songplaysTableOf, hfe]
  · intro e2 he2
    have h2 := List.mem_filter.mp he2
    simpa using h2.2

theorem filter_correctness_witness :
    nonSongEvent.page ≠ "NextSong" ∧
      NonSongInvariance [] sampleLogs nonSongEvent (songsTableOf sampleCatalog) singlePart :=
  ⟨by decide, filter_correctness [] sampleLogs nonSongEvent (songsTableOf sampleCatalog)
    singlePart (by decide)⟩

/-- C6: each of the four dimension tables (songs, artists, users, time) contains no
two rows equal across all columns, and a song projection present in the songs table
occurs in it exactly once. -/
theorem dedup_correctness (catalog : List SongRecord) (logs : List LogRecord) :
    (songsTableOf catalog).Nodup ∧ (artistsTableOf catalog).Nodup ∧
    (usersTableOf logs).Nodup ∧ (timeTableOf (filterEvents logs)).Nodup ∧
    ∀ r ∈ songsTableOf catalog, (songsTableOf catalog).count r = 1 := by
  refine ⟨List.nodup_dedup _, List.nodup_dedup _, List.nodup_dedup _, List.nodup_dedup _, ?_⟩
  intro r hr
  exact List.count_eq_one_of_mem (List.nodup_dedup _) hr

theorem dedup_correctness_witness :
    (⟨"S1", "Test Song", "A1", 2000, 200⟩ : SongRow) ∈ songsTableOf sampleCatalog ∧
      (songsTableOf sampleCatalog).count ⟨"S1", "Test Song", "A1", 2000, 200⟩ = 1 :=
  ⟨by decide, (dedup_correctness sampleCatalog sampleLogs).2.2.2.2 _ (by decide)⟩

/-- C7: the time decomposition of an epoch-millisecond timestamp is a pure function
(equal raw timestamps give identical rows), with hour in 0..23, day-of-month in
1..31, month in 1..12, year at least 1970, ISO week number in 1..53, and ISO weekday
in 1..7; the anchor conjunct checks weekday 1 on 2018-11-12, a Monday. -/
theorem calendar_decomposition (ts : Nat) :
    (∀ ts2 : Nat, ts = ts2 → timeRowOf ts = timeRowOf ts2) ∧
    (timeRowOf ts).hour ≤ 23 ∧
    1 ≤ (timeRowOf ts).day ∧ (timeRowOf ts).day ≤ 31 ∧
    1 ≤ (timeRowOf ts).month ∧ (timeRowOf ts).month ≤ 12 ∧
    1970 ≤ (timeRowOf ts).year ∧
    1 ≤ (timeRowOf ts).week ∧ (timeRowOf ts).week ≤ 53 ∧
    1 ≤ (timeRowOf ts).weekday ∧ (timeRowOf ts).weekday ≤ 7 ∧
    (timeRowOf 1541990258796).weekday = 1 := by
  have hmd := calMonthDay_bounds ts
  have hweek := isoWeek_bounds (calYear ts) (calDoy ts + 1) (isoWeekday ts)
  refine ⟨fun ts2 h => by rw [h], ?_, hmd.2.2.1, hmd.2.2.2, hmd.1, hmd.2.1,
    calYear_ge ts, hweek.1, hweek.2, ?_, ?_, by decide⟩
  · show ts / 1000 % 86400 / 3600 ≤ 23
    omega
  · show 1 ≤ (ts / 1000 / 86400 + 3) % 7 + 1
    omega
  · show (ts / 1000 / 86400 + 3) % 7 + 1 ≤ 7
    omega

theorem calendar_decomposition_witness :
    (1541990258796 : Nat) = 1541990258796 ∧
      timeRowOf 1541990258796 = timeRowOf 1541990258796 :=
  ⟨rfl, (calendar_decomposition 1541990258796).1 1541990258796 rfl⟩

/-- C8: the pipeline is deterministic and idempotent at the storage level: a run's
output tables do not depend on the prior storage state (every table is rewritten in
overwrite mode), so running twice on identical inputs — with the engine choosing the
same partitioning — yields identical contents for all five tables. -/
theorem pipeline_idempotent (catalog : List SongRecord) (logs : List LogRecord)
    (P : List JoinedEvent → List (List JoinedEvent)) (st st2 : Storage) :
    mainRun catalog logs P st = mainRun catalog logs P st2 ∧
      mainRun catalog logs P (mainRun catalog logs P st) = mainRun catalog logs P st :=
  ⟨rfl, rfl⟩

/-- C9 (amended): on the spec's example scenario — one catalog record (S1, "Test
Song", A1) and one NextSong event for "Test Song" at ts 1541990258796 — the pipeline
produces exactly one songplays row with song_id S1, artist_id A1, year 2018, month
11, and exactly one time row for the decomposed instant 2018-11-12 02:37:38 UTC
(hour 2) with year 2018, month 11, week 46, weekday 1. -/
theorem example_scenario :
    (mainRun sampleCatalog sampleLogs singlePart emptyStorage).songplays =
        [⟨0, 1541990258796, 2018, 11, "10", "free", some "S1", some "A1", 100,
          "Metropolis", "agent"⟩] ∧
      (mainRun sampleCatalog sampleLogs singlePart emptyStorage).time =
        [⟨1541990258796, 2, 12, 46, 11, 2018, 1⟩] :=
  ⟨by decide, by decide⟩

/-- C9 counterexample: the decomposed instant of ts = 1541990258796 has hour 2
(02:37:38 UTC), not hour 3 as the claim's parenthetical states. -/
theorem example_scenario_hour :
    (mainRun sampleCatalog sampleLogs singlePart emptyStorage).time.map TimeRow.hour
        = [2] ∧
      (mainRun sampleCatalog sampleLogs singlePart emptyStorage).time.map TimeRow.hour
        ≠ [3] :=
  ⟨by decide, by decide⟩

/-- C3 counterexample: two catalog records identical except for duration survive the
songs dedup as two rows with the same title, song_id and artist_id; a single
matching event then yields TWO songplays rows, because the synthetic songplay_id is
assigned per joined row before the final full-row dedup, so the fan-out copies
differ in songplay_id and are not collapsed. -/
theorem songs_fanout :
    ((songsTableOf fanoutCatalog).map fun s => (s.title, s.song_id, s.artist_id)) =
        [("Test Song", "S1", "A1"), ("Test Song", "S1", "A1")] ∧
      (mainRun fanoutCatalog sampleLogs singlePart emptyStorage).songplays.length = 2 :=
  ⟨by decide, by decide⟩

/-- C3 (amended): after the two-stage join chain the songplays table is deduplicated
by full-row equality (songplay_id included), so it never contains two identical
rows, and duplicate start_time rows in the time table cause no fan-out (the result
is unchanged if the time table is deduplicated first); however the dedup does NOT
guard against songs-table fan-out, since each matched copy receives a distinct
songplay_id (see the counterexample). -/
theorem dedup_after_join (s1 : List Stage1Row) (tt : List TimeRow) :
    (calendarJoin s1 tt).Nodup ∧
      ∀ row : SongplayRow, row ∈ calendarJoin s1 tt ↔ row ∈ calendarJoin s1 tt.dedup := by
  refine ⟨List.nodup_dedup _, ?_⟩
  intro row
  simp [calendarJoin, List.mem_dedup, List.mem_flatMap, List.mem_filter]

theorem dedup_after_join_witness :
    (calendarJoin [] []).Nodup := (dedup_after_join [] []).1

/-- C1: the identity join is a left outer join of filtered events against the songs
table on event.song = song.title: every songplays row with non-null song_id comes
from a songs row whose title equals the origin event's song field (and inherits its
artist_id), every row with null song_id comes from an event no songs row's title
matched, and every filtered event survives the identity join. -/
theorem join_soundness (logs : List LogRecord) (songs : List SongRow)
    (P : List JoinedEvent → List (List JoinedEvent))
    (hP : validParts (P (leftJoinSongs (filterEvents logs) songs))
      (leftJoinSongs (filterEvents logs) songs)) :
    JoinSoundness logs songs P := by
  constructor
  · intro row hrow
    rw [songplays_pipeline_eq logs songs P hP] at hrow
    rcases List.mem_map.mp hrow with ⟨r, hr, hrow2⟩
    have hstrip := (mem_assignIds hr).1
    rw [hP.1] at hstrip
    rcases mem_leftJoinSongs hstrip with ⟨e, he, hjf, hcase⟩
    have hsi : row.song_id = r.song_id := by rw [← hrow2]; rfl
    have hai : row.artist_id = r.artist_id := by rw [← hrow2]; rfl
    refine ⟨e, he, ?_, ?_, ?_⟩
    · have h1 : row.start_time = r.start_time := by rw [← hrow2]; rfl
      have h2 : row.userId = r.userId := by rw [← hrow2]; rfl
      have h3 : row.level = r.level := by rw [← hrow2]; rfl
      have h4 : row.sessionId = r.sessionId := by rw [← hrow2]; rfl
      have h5 : row.location = r.location := by rw [← hrow2]; rfl
      have h6 : row.userAgent = r.userAgent := by rw [← hrow2]; rfl
      exact ⟨h1.trans hjf.1, h2.trans hjf.2.1, h3.trans hjf.2.2.1, h4.trans hjf.2.2.2.1,
        h5.trans hjf.2.2.2.2.1, h6.trans hjf.2.2.2.2.2⟩
    · intro sid hsid
      rw [hsi] at hsid
      rcases hcase with ⟨hn, _, _⟩ | ⟨s, hs, hts, hsid2, haid2⟩
      · rw [show r.song_id = none from hn] at hsid
        cases hsid
      · rw [show r.song_id = some s.song_id from hsid2] at hsid
        refine ⟨s, hs, hts, (Option.some.inj hsid), ?_⟩
        rw [hai]
        exact haid2
    · intro hnone
      rw [hsi] at hnone
      rcases hcase with ⟨_, _, hno⟩ | ⟨s, _, _, hsid2, _⟩
      · exact hno
      · rw [show r.song_id = some s.song_id from hsid2] at hnone
        cases hnone
  · intro e he
    exact leftJoinSongs_surv he

theorem join_soundness_witness :
    validParts
        (singlePart (leftJoinSongs (filterEvents sampleLogs) (songsTableOf sampleCatalog)))
        (leftJoinSongs (filterEvents sampleLogs) (songsTableOf sampleCatalog)) ∧
      JoinSoundness sampleLogs (songsTableOf sampleCatalog) singlePart :=
  ⟨by decide, join_soundness sampleLogs (songsTableOf sampleCatalog) singlePart (by decide)⟩

/-- C2: the synthetic songplay_id values in the songplays table are pairwise
distinct and strictly increasing in table order for every partitioning of the
stage-1 rows whose partitions respect the 2^33 per-partition bound (so uniqueness
holds across independent partitions); each id is assigned at stage 1, before the
calendar join, and preserved through it together with the row's other fields; and
identifiers need not be contiguous (a two-partition run yields ids 0 and 2^33). -/
theorem unique_ids (logs : List LogRecord) (songs : List SongRow)
    (P : List JoinedEvent → List (List JoinedEvent))
    (hP : validParts (P (leftJoinSongs (filterEvents logs) songs))
      (leftJoinSongs (filterEvents logs) songs)) :
    UniqueIds logs songs P ∧ NoncontiguousIdsPossible := by
  refine ⟨⟨?_, ?_⟩, ?_⟩
  · rw [songplays_pipeline_eq logs songs P hP, List.map_map]
    have hcomp : (SongplayRow.songplay_id ∘ fun r => songplayOfJoin r (timeRowOf r.start_time))
        = Stage1Row.songplay_id := rfl
    rw [hcomp]
    exact assignIds_pairwise _ hP.2 0
  · intro row hrow
    rw [songplays_pipeline_eq logs songs P hP] at hrow
    rcases List.mem_map.mp hrow with ⟨r, hr, hrow2⟩
    refine ⟨r, hr, ?_, ?_, ?_, ?_, ?_, ?_, ?_, ?_, ?_⟩ <;> rw [← hrow2] <;> rfl
  · exact ⟨pairLogs, [], twoPart, by decide, by decide, by decide⟩

theorem unique_ids_witness :
    validParts (singlePart (leftJoinSongs (filterEvents pairLogs) []))
        (leftJoinSongs (filterEvents pairLogs) []) ∧ UniqueIds pairLogs [] singlePart :=
  ⟨by decide, (unique_ids pairLogs [] singlePart (by decide)).1⟩

/-- C4: every songplays row takes its year and month from the unique time-table row
whose start_time equals the row's start_time (the calendar join is an inner join on
start_time), and in general any stage-1 start_time with no matching time-table row
produces no fact row at all. -/
theorem calendar_sourcing (logs : List LogRecord) (songs : List SongRow)
    (P : List JoinedEvent → List (List JoinedEvent)) :
    CalendarSourcing logs songs P ∧
      ∀ (s1 : List Stage1Row) (tt : List TimeRow) (st : Nat),
        (∀ t ∈ tt, t.start_time ≠ st) →
          ∀ row ∈ calendarJoin s1 tt, row.start_time ≠ st := by
  constructor
  · intro row hrow
    simp only [songplaysTableOf, calendarJoin] at hrow
    rcases List.mem_flatMap.mp (List.mem_dedup.mp hrow) with ⟨r, hr, hmem⟩
    rcases List.mem_map.mp hmem with ⟨t, ht, hrt⟩
    rcases List.mem_filter.mp ht with ⟨httbl, hpred⟩
    have hts : t.start_time = r.start_time := by simpa using hpred
    subst hrt
    refine ⟨t, httbl, hts, rfl, rfl, ?_⟩
    intro u hu hus
    have h3 : u.start_time = t.start_time := by
      rw [hts]
      exact hus
    rw [timeTable_row_eq hu, timeTable_row_eq httbl, h3]
  · intro s1 tt st hnone row hrow
    rcases List.mem_flatMap.mp (List.mem_dedup.mp hrow) with ⟨r, hr, hmem⟩
    rcases List.mem_map.mp hmem with ⟨t, ht, hrt⟩
    rcases List.mem_filter.mp ht with ⟨httbl, hpred⟩
    have hts : t.start_time = r.start_time := by simpa using hpred
    subst hrt
    intro hcontra
    apply hnone t httbl
    rw [hts]
    exact hcontra

theorem calendar_sourcing_witness :
    sampleSongplayRow ∈ songplaysTableOf sampleLogs (songsTableOf sampleCatalog) singlePart ∧
      CalendarSourcing sampleLogs (songsTableOf sampleCatalog) singlePart :=
  ⟨by decide, (calendar_sourcing sampleLogs (songsTableOf sampleCatalog) singlePart).1⟩

/-- C10: within a single run the calendar join never drops a filtered event: the
time table is built from the same filtered event set that feeds the fact build, so
every stage-1 row finds its matching time row, the songplays table has exactly as
many rows as the stage-1 left join, and every filtered event is represented in it
(the CalendarMismatch data-loss case is unreachable). -/
theorem no_calendar_drop (logs : List LogRecord) (songs : List SongRow)
    (P : List JoinedEvent → List (List JoinedEvent))
    (hP : validParts (P (leftJoinSongs (filterEvents logs) songs))
      (leftJoinSongs (filterEvents logs) songs)) :
    NoCalendarDrop logs songs P := by
  constructor
  · rw [songplays_pipeline_eq logs songs P hP, List.length_map, assignIds_length, hP.1]
  · intro e he
    rcases @leftJoinSongs_surv (filterEvents logs) songs e he with ⟨j, hj, hjf⟩
    rw [← hP.1] at hj
    rcases @assignIds_surj _ _ 0 hj with ⟨r, hr, hrj⟩
    refine ⟨songplayOfJoin r (timeRowOf r.start_time), ?_, ?_⟩
    · rw [songplays_pipeline_eq logs songs P hP]
      exact List.mem_map_of_mem _ hr
    · rw [← hrj] at hjf
      exact ⟨hjf.1, hjf.2.1, hjf.2.2.1, hjf.2.2.2.1, hjf.2.2.2.2.1, hjf.2.2.2.2.2⟩

theorem no_calendar_drop_witness :
    validParts
        (singlePart (leftJoinSongs (filterEvents sampleLogs) (songsTableOf sampleCatalog)))
        (leftJoinSongs (filterEvents sampleLogs) (songsTableOf sampleCatalog)) ∧
      NoCalendarDrop sampleLogs (songsTableOf sampleCatalog) singlePart :=
  ⟨by decide, no_calendar_drop sampleLogs (songsTableOf sampleCatalog) singlePart (by decide)⟩
